import Mathlib

/-!
# Topic assignment: a verification development of `main_topic_assignment.cpp`

The program reads a topic file, a student preference file and a weight file,
builds a cost matrix, writes a 0/1 linear program, hands it to `lp_solve`,
reads the answer back into `result_matrix`, checks it and prints the
assignment.

Embedding conventions.
* `std::vector<T>` is `List T`; `std::pair` is a product.
* `unsigned` is a `Nat` below `2^32`, `std::size_t` a `Nat` below `2^64`;
  arithmetic that can wrap carries its modulus explicitly.
* `operator[]` outside the bounds of a vector is undefined behaviour; the
  functions that can reach it return `Option`, `none` standing for it.
* Stream extraction is taken at token level: a line of the student file is
  the name that `ss >> student_name` read together with the values that the
  successive `ss >> preference` produced (a failed extraction produces `0`).
* The text of the LP file is taken at the level of its abstract syntax
  (objective terms, equations, `bin` declarations, in the order written);
  the ` + ` separators driven by the `first` flag are layout only.
* `lp_solve` and the read-back loop (lines 192-218) are outside the program's
  control: the model receives, as a function of the LP file written, the
  `result_matrix` that the read-back loop leaves behind.
* `read_in_weights`, the argument check with its help text (lines 84-97) and
  the removal of the two files (lines 252-253) are not modelled; `weights` is
  the vector that `read_in_weights` returned.
-/

namespace TopicAssignment

/-! ## Data model -/

/-- A dense matrix, `std::vector<std::vector<unsigned>>`. -/
abbrev Matrix := List (List Nat)

/-- The entry `m[i][j]` of a matrix (`0` outside the matrix; every use in the
checked loops is inside). -/
def entry (m : Matrix) (i j : Nat) : Nat := (m.getD i []).getD j 0

/-- A topic, `std::pair<std::string, std::size_t>`: name and capacity. -/
abbrev Topic := String × Nat

/-- A student, `std::pair<std::string, std::vector<unsigned>>`: name and
ranked 1-based topic ids. -/
abbrev Student := String × List Nat

/-- An LP variable `x_<i_student>_<i_topic>`. -/
abbrev Var := Nat × Nat

/-- An equation of the LP file: the variables summed on the left and the
constant on the right. -/
structure Equation where
  lhs : List Var
  rhs : Nat
deriving DecidableEq, Repr

/-- The content of `topic_assignment.lp`, in the order written. -/
structure LpFile where
  objective : List (Nat × Var)
  constraints : List Equation
  binaries : List Var
deriving DecidableEq, Repr

/-! ## Readers -/

/-- The function `read_in_topics`: every non-empty line becomes a topic of
capacity `1`. -/
def read_in_topics (lines : List String) : List Topic :=
  lines.foldl (fun topics topic_line =>
    if topic_line.isEmpty then topics else topics ++ [(topic_line, 1)]) []

/-- The inner `while(!ss.eof())` loop of `read_in_student_preferences`: the
extracted values are pushed one by one, a value `0` throws (`none`). -/
def read_preferences : List Nat → List Nat → Option (List Nat)
  | [], student_topic_preferences => some student_topic_preferences
  | preference :: rest, student_topic_preferences =>
    if preference = 0 then none
    else read_preferences rest (student_topic_preferences ++ [preference])

/-- The call `std::map::insert`: the map is kept sorted by key (strings
compare character by character) and an existing key keeps its value. -/
def map_insert (key : String) (value : List Nat) : List Student → List Student
  | [] => [(key, value)]
  | (k, v) :: rest =>
    if key.toList < k.toList then (key, value) :: (k, v) :: rest
    else if key = k then (k, v) :: rest
    else (k, v) :: map_insert key value rest

/-- The outer `while(std::getline(istr, line))` loop of
`read_in_student_preferences`, from line number `i_line` on. -/
def read_student_lines : List (String × List Nat) → Nat → List Student →
    Except String (List Student)
  | [], _, student_preferences => .ok student_preferences
  | (student_name, extracted) :: rest, i_line, student_preferences =>
    match read_preferences extracted [] with
    | none => .error ("Parsing error in student preference file at line " ++ toString i_line)
    | some student_topic_preferences =>
      read_student_lines rest (i_line + 1)
        (map_insert student_name student_topic_preferences student_preferences)

/-- The function `read_in_student_preferences`. -/
def read_in_student_preferences (lines : List (String × List Nat)) :
    Except String (List Student) :=
  read_student_lines lines 1 []

/-! ## Cost matrix (lines 116-127) -/

/-- The index expression `student_preference.second[i_pref]-1`, computed in
`unsigned` arithmetic. -/
def pref_index (preference : Nat) : Nat :=
  (preference % 4294967296 + 4294967295) % 4294967296

/-- The inner loop over `i_pref` for one student, acting on that student's
row: `c_matrix[i_student][pref-1] = weights[i_pref]`. -/
def fill_row (weights : List Nat) : Nat → List Nat → List Nat → Option (List Nat)
  | _, [], row => some row
  | i_pref, preference :: rest, row =>
    match weights[i_pref]? with
    | none => none
    | some weight =>
      if pref_index preference < row.length then
        fill_row weights (i_pref + 1) rest (row.set (pref_index preference) weight)
      else none

/-- The outer loop over the students, from `i_student` on. -/
def fill_rows (weights : List Nat) : Nat → List Student → Matrix → Option Matrix
  | _, [], c_matrix => some c_matrix
  | i_student, student_preference :: rest, c_matrix =>
    match c_matrix[i_student]? with
    | none => none
    | some row =>
      match fill_row weights 0 student_preference.2 row with
      | none => none
      | some filled =>
        fill_rows weights (i_student + 1) rest (c_matrix.set i_student filled)

/-- The cost matrix built in `main`: allocated with zeros, then filled. -/
def build_c_matrix (student_preferences : List Student) (n_distinct_topics : Nat)
    (weights : List Nat) : Option Matrix :=
  fill_rows weights 0 student_preferences
    (List.replicate student_preferences.length (List.replicate n_distinct_topics 0))

/-! ## The LP file (lines 129-189) -/

/-- The target function (lines 133-149): one term `c x_s_t` for every pair
with a non-zero cost, row by row; zero entries are skipped by `continue`. -/
def emit_objective (c_matrix : Matrix) (n_students n_distinct_topics : Nat) :
    List (Nat × Var) :=
  (List.range n_students).foldl (fun out i_student =>
    (List.range n_distinct_topics).foldl (fun out i_topic =>
      if entry c_matrix i_student i_topic = 0 then out
      else out ++ [(entry c_matrix i_student i_topic, (i_student, i_topic))]) out) []

/-- The first constraint block (lines 151-167): for every topic the sum over
all students, closed by the literal ` = 1;`. -/
def emit_topic_constraints (n_students n_distinct_topics : Nat) : List Equation :=
  (List.range n_distinct_topics).foldl (fun out i_topic =>
    out ++ [{ lhs := (List.range n_students).foldl
                (fun line i_student => line ++ [(i_student, i_topic)]) [],
              rhs := 1 }]) []

/-- The second constraint block (lines 169-185): for every student the sum
over all topics, closed by the literal ` = 1;`. -/
def emit_student_constraints (n_students n_distinct_topics : Nat) : List Equation :=
  (List.range n_students).foldl (fun out i_student =>
    out ++ [{ lhs := (List.range n_distinct_topics).foldl
                (fun line i_topic => line ++ [(i_student, i_topic)]) [],
              rhs := 1 }]) []

/-- The `bin` declarations (lines 187-189), topic by topic. -/
def emit_binaries (n_students n_distinct_topics : Nat) : List Var :=
  (List.range n_distinct_topics).foldl (fun out i_topic =>
    (List.range n_students).foldl (fun out i_student =>
      out ++ [(i_student, i_topic)]) out) []

/-- The LP file as `main` writes it. -/
def build_lp (c_matrix : Matrix) (n_students n_distinct_topics : Nat) : LpFile :=
  { objective := emit_objective c_matrix n_students n_distinct_topics
    constraints := emit_topic_constraints n_students n_distinct_topics ++
      emit_student_constraints n_students n_distinct_topics
    binaries := emit_binaries n_students n_distinct_topics }

/-! ## Meaning of an LP file -/

/-- The value of the written objective under an assignment of the
variables. -/
def objective_value (objective : List (Nat × Var)) (x : Matrix) : Nat :=
  (objective.map (fun term => term.1 * entry x term.2.1 term.2.2)).sum

/-- An assignment of the variables satisfies an equation. -/
def satisfies (x : Matrix) (eq : Equation) : Prop :=
  (eq.lhs.map (fun v => entry x v.1 v.2)).sum = eq.rhs

instance (x : Matrix) (eq : Equation) : Decidable (satisfies x eq) := by
  unfold satisfies; infer_instance

/-- The matrix has `n_students` rows of `n_distinct_topics` entries. -/
def has_shape (x : Matrix) (n_students n_distinct_topics : Nat) : Prop :=
  x.length = n_students ∧ ∀ row ∈ x, row.length = n_distinct_topics

instance (x : Matrix) (n m : Nat) : Decidable (has_shape x n m) := by
  unfold has_shape; infer_instance

/-- Every entry of the matrix is `0` or `1`. -/
def is_binary (x : Matrix) : Prop :=
  ∀ row ∈ x, ∀ v ∈ row, v = 0 ∨ v = 1

instance (x : Matrix) : Decidable (is_binary x) := by
  unfold is_binary; infer_instance

/-- A 0/1 matrix of the right shape that satisfies every equation of the
file. -/
def feasible (lp : LpFile) (n_students n_distinct_topics : Nat) (x : Matrix) : Prop :=
  has_shape x n_students n_distinct_topics ∧ is_binary x ∧
    ∀ eq ∈ lp.constraints, satisfies x eq

instance (lp : LpFile) (n m : Nat) (x : Matrix) : Decidable (feasible lp n m x) := by
  unfold feasible; infer_instance

/-! ## Consistency checks and report (lines 220-250) -/

/-- The count `n_trues` of lines 223-225 for one student (at most
`n_distinct_topics`, so the `std::size_t` counter cannot wrap). -/
def n_trues_student (result_matrix : Matrix) (i_student n_distinct_topics : Nat) : Nat :=
  (List.range n_distinct_topics).foldl (fun n_trues i_topic =>
    n_trues + (if entry result_matrix i_student i_topic ≠ 0 then 1 else 0)) 0

/-- The count `n_trues` of lines 234-236 for one topic (at most
`n_students`). -/
def n_trues_topic (result_matrix : Matrix) (n_students i_topic : Nat) : Nat :=
  (List.range n_students).foldl (fun n_trues i_student =>
    n_trues + (if entry result_matrix i_student i_topic ≠ 0 then 1 else 0)) 0

/-- The per-student check (lines 221-230): what it writes to `std::cerr`. It
never leaves `main`. -/
def check_students (result_matrix : Matrix) (n_students n_distinct_topics : Nat) :
    List String :=
  (List.range n_students).foldl (fun cerr i_student =>
    if n_trues_student result_matrix i_student n_distinct_topics ≠ 1
    then cerr ++ ["Error"] else cerr) []

/-- The per-topic check (lines 232-242): the first topic whose count is not
`1`, at which `main` prints `Error` and returns `1`. -/
def check_topics (result_matrix : Matrix) (n_students n_distinct_topics : Nat) :
    Option Nat :=
  (List.range n_distinct_topics).find? (fun i_topic =>
    decide (n_trues_topic result_matrix n_students i_topic ≠ 1))

/-- The report loop (lines 244-250) as index pairs: for every student the
first topic with a set entry, if there is one (`break`). -/
def report_pairs (result_matrix : Matrix) (n_students n_distinct_topics : Nat) :
    List (Nat × Nat) :=
  (List.range n_students).foldl (fun out i_student =>
    match (List.range n_distinct_topics).find? (fun i_topic =>
        decide (entry result_matrix i_student i_topic ≠ 0)) with
    | some i_topic => out ++ [(i_student, i_topic)]
    | none => out) []

/-- The line printed for a pair of the report loop. -/
def report_line (topics : List Topic) (student_preferences : List Student)
    (pair : Nat × Nat) : String :=
  (student_preferences.getD pair.1 ("", [])).1 ++ " get the topic " ++
    (topics.getD pair.2 ("", 0)).1

/-! ## The run of `main` -/

/-- How a run ends: `main` returns a status, an exception leaves `main`, or
the run has reached undefined behaviour. -/
inductive Exit where
  | returned (status : Nat)
  | threw (what : String)
  | undefined
deriving DecidableEq, Repr

/-- What a run of `main` has done when it ends. -/
structure Run where
  c_matrix : Option Matrix
  lp_file : Option LpFile
  lp_solve_called : Bool
  cerr : List String
  cout : List String
  exit : Exit
deriving DecidableEq, Repr

/-- The sum `n_topics` of lines 109-111, a `std::size_t`. -/
def n_topics (topics : List Topic) : Nat :=
  topics.foldl (fun n_topics topic => (n_topics + topic.2) % 18446744073709551616) 0

/-- The text of the exception of line 114. -/
def balance_error : String :=
  "Number of all topics (with potential duplicates) does not match number of students."

/-- Lines 220-255 of `main`: the checks, the report and the return value. -/
def check_and_report (topics : List Topic) (student_preferences : List Student)
    (result_matrix : Matrix) : List String × List String × Nat :=
  let n_students := student_preferences.length
  let n_distinct_topics := topics.length
  let cerr := check_students result_matrix n_students n_distinct_topics
  match check_topics result_matrix n_students n_distinct_topics with
  | some _ => (cerr ++ ["Error"], [], 1)
  | none =>
    (cerr, (report_pairs result_matrix n_students n_distinct_topics).map
      (report_line topics student_preferences), 0)

/-- Lines 107-255 of `main`, on the three vectors read from the files. -/
def main_body (topics : List Topic) (student_preferences : List Student)
    (weights : List Nat) (lp_solve : LpFile → Matrix) : Run :=
  let n_students := student_preferences.length
  let n_distinct_topics := topics.length
  if n_students ≠ n_topics topics then
    { c_matrix := none, lp_file := none, lp_solve_called := false,
      cerr := [], cout := [], exit := .threw balance_error }
  else
    match build_c_matrix student_preferences n_distinct_topics weights with
    | none =>
      { c_matrix := none, lp_file := none, lp_solve_called := false,
        cerr := [], cout := [], exit := .undefined }
    | some c_matrix =>
      let lp := build_lp c_matrix n_students n_distinct_topics
      let result_matrix := lp_solve lp
      let out := check_and_report topics student_preferences result_matrix
      { c_matrix := some c_matrix, lp_file := some lp, lp_solve_called := true,
        cerr := out.1, cout := out.2.1, exit := .returned out.2.2 }

/-- Lines 99-255 of `main`: the files are read, then the body runs. -/
def main (topic_lines : List String) (student_lines : List (String × List Nat))
    (weights : List Nat) (lp_solve : LpFile → Matrix) : Run :=
  let topics := read_in_topics topic_lines
  match read_in_student_preferences student_lines with
  | .error what =>
    { c_matrix := none, lp_file := none, lp_solve_called := false,
      cerr := [], cout := [], exit := .threw what }
  | .ok student_preferences => main_body topics student_preferences weights lp_solve


/-! ## Auxiliary descriptions used in the statements -/

/-- The variables of column `i_topic`, student by student. -/
def column_vars (n_students i_topic : Nat) : List Var :=
  (List.range n_students).map (fun i_student => (i_student, i_topic))

/-- The variables of row `i_student`, topic by topic. -/
def row_vars (i_student n_distinct_topics : Nat) : List Var :=
  (List.range n_distinct_topics).map (fun i_topic => (i_student, i_topic))

/-- The terms that row `i_student` contributes to the objective. -/
def row_terms (c_matrix : Matrix) (i_student n_distinct_topics : Nat) : List (Nat × Var) :=
  (List.range n_distinct_topics).flatMap (fun i_topic =>
    if entry c_matrix i_student i_topic = 0 then []
    else [(entry c_matrix i_student i_topic, (i_student, i_topic))])

/-- The sum of the capacities of all topics, as a number. -/
def capacity_sum (topics : List Topic) : Nat := (topics.map (fun topic => topic.2)).sum

/-- The capacity of topic `i_topic`. -/
def capacity (topics : List Topic) (i_topic : Nat) : Nat := (topics.getD i_topic ("", 0)).2

/-- The constraint set in the words of the specification: for every student
the sum over all topics equals `1`, for every topic the sum over all students
equals the capacity of the topic. -/
def spec_constraints (topics : List Topic) (n_students : Nat) : List Equation :=
  (List.range n_students).map
      (fun s => { lhs := row_vars s topics.length, rhs := 1 }) ++
    (List.range topics.length).map
      (fun t => { lhs := column_vars n_students t, rhs := capacity topics t })

/-- All index pairs of an `n_students` by `n_distinct_topics` matrix, row by
row. -/
def row_major_pairs (n_students n_distinct_topics : Nat) : List Var :=
  (List.range n_students).flatMap (fun s => row_vars s n_distinct_topics)

/-- The objective in the words of the specification: the terms
`C[s][t] x_s_t` over exactly the pairs with a non-zero cost, in row-major
order. -/
def spec_objective (c_matrix : Matrix) (n_students n_distinct_topics : Nat) :
    List (Nat × Var) :=
  ((row_major_pairs n_students n_distinct_topics).filter
    (fun v => decide (entry c_matrix v.1 v.2 ≠ 0))).map
    (fun v => (entry c_matrix v.1 v.2, v))

/-- The number of students assigned to a topic, in the words of the
specification: the students of the column with a set entry. -/
def assigned_count (result_matrix : Matrix) (n_students i_topic : Nat) : Nat :=
  ((List.range n_students).filter
    (fun s => decide (entry result_matrix s i_topic ≠ 0))).length

/-- The topic that the report loop names for a student: the first one with a
set entry. -/
def reported_topic (result_matrix : Matrix) (n_distinct_topics i_student : Nat) : Nat :=
  ((List.range n_distinct_topics).find? (fun i_topic =>
    decide (entry result_matrix i_student i_topic ≠ 0))).getD 0

/-- The total utility of an assignment of a topic index to every student
index: the sum of `C[s][assigned_topic(s)]` over the students. -/
def total_utility (c_matrix : Matrix) (n_students : Nat) (assigned : Nat → Nat) : Nat :=
  ((List.range n_students).map (fun s => entry c_matrix s (assigned s))).sum

/-- A feasible assignment in the words of the specification: every student
gets one topic, and every topic is given to exactly as many students as its
capacity. -/
def feasible_assignment (topics : List Topic) (n_students : Nat) (assigned : Nat → Nat) :
    Prop :=
  (∀ s, s < n_students → assigned s < topics.length) ∧
  ∀ t, t < topics.length →
    ((List.range n_students).filter (fun s => decide (assigned s = t))).length =
      capacity topics t

/-- The 0/1 matrix of an assignment. -/
def assignment_matrix (n_students n_distinct_topics : Nat) (assigned : Nat → Nat) : Matrix :=
  (List.range n_students).map (fun s =>
    (List.range n_distinct_topics).map (fun t => if assigned s = t then 1 else 0))

/-- The contract of the solving engine for an answer: it is feasible for the
file and no feasible matrix gives the written objective a larger value. -/
def optimal_answer (lp : LpFile) (n_students n_distinct_topics : Nat) (x : Matrix) : Prop :=
  feasible lp n_students n_distinct_topics x ∧
  ∀ y, feasible lp n_students n_distinct_topics y →
    objective_value lp.objective y ≤ objective_value lp.objective x

/-! # Theorems -/

/-! ## Loops in closed form -/

theorem foldl_append_flatMap {α β : Type} (f : α → List β) (l : List α) (init : List β) :
    l.foldl (fun out a => out ++ f a) init = init ++ l.flatMap f := by
  induction l generalizing init with
  | nil => simp
  | cons a l ih => simp [ih]

theorem flatMap_single {α β : Type} (g : α → β) (l : List α) :
    l.flatMap (fun a => [g a]) = l.map g := by
  induction l with
  | nil => rfl
  | cons a l ih => simp [ih]

theorem foldl_add_sum {α : Type} (f : α → Nat) (l : List α) (init : Nat) :
    l.foldl (fun n a => n + f a) init = init + (l.map f).sum := by
  induction l generalizing init with
  | nil => simp
  | cons a l ih => simp [ih, Nat.add_assoc]

theorem sum_map_range (f : Nat → Nat) (n : Nat) :
    ((List.range n).map f).sum = ∑ i in Finset.range n, f i := by
  induction n with
  | zero => simp
  | succ n ih => simp [List.range_succ, Finset.sum_range_succ, ih]

theorem emit_topic_constraints_eq (n_students n_distinct_topics : Nat) :
    emit_topic_constraints n_students n_distinct_topics =
      (List.range n_distinct_topics).map
        (fun i_topic => { lhs := column_vars n_students i_topic, rhs := 1 }) := by
  unfold emit_topic_constraints column_vars
  have inner : ∀ i_topic, (List.range n_students).foldl
      (fun line i_student => line ++ [((i_student, i_topic) : Var)]) [] =
      (List.range n_students).map (fun i_student => (i_student, i_topic)) := by
    intro i_topic
    rw [foldl_append_flatMap (fun i_student => [((i_student, i_topic) : Var)]),
      flatMap_single]
    rfl
  simp only [inner]
  rw [foldl_append_flatMap (fun i_topic =>
    [({ lhs := (List.range n_students).map (fun i_student => (i_student, i_topic)),
        rhs := 1 } : Equation)]), flatMap_single]
  rfl

theorem emit_student_constraints_eq (n_students n_distinct_topics : Nat) :
    emit_student_constraints n_students n_distinct_topics =
      (List.range n_students).map
        (fun i_student => { lhs := row_vars i_student n_distinct_topics, rhs := 1 }) := by
  unfold emit_student_constraints row_vars
  have inner : ∀ i_student, (List.range n_distinct_topics).foldl
      (fun line i_topic => line ++ [((i_student, i_topic) : Var)]) [] =
      (List.range n_distinct_topics).map (fun i_topic => (i_student, i_topic)) := by
    intro i_student
    rw [foldl_append_flatMap (fun i_topic => [((i_student, i_topic) : Var)]),
      flatMap_single]
    rfl
  simp only [inner]
  rw [foldl_append_flatMap (fun i_student =>
    [({ lhs := (List.range n_distinct_topics).map (fun i_topic => (i_student, i_topic)),
        rhs := 1 } : Equation)]), flatMap_single]
  rfl

theorem emit_binaries_eq (n_students n_distinct_topics : Nat) :
    emit_binaries n_students n_distinct_topics =
      (List.range n_distinct_topics).flatMap (fun i_topic => column_vars n_students i_topic) := by
  unfold emit_binaries column_vars
  have inner : ∀ (i_topic : Nat) (out : List Var), (List.range n_students).foldl
      (fun out i_student => out ++ [((i_student, i_topic) : Var)]) out =
      out ++ (List.range n_students).map (fun i_student => (i_student, i_topic)) := by
    intro i_topic out
    rw [foldl_append_flatMap (fun i_student => [((i_student, i_topic) : Var)]),
      flatMap_single]
  simp only [inner]
  rw [foldl_append_flatMap (fun i_topic =>
    (List.range n_students).map (fun i_student => ((i_student, i_topic) : Var)))]
  rfl

theorem emit_objective_eq (c_matrix : Matrix) (n_students n_distinct_topics : Nat) :
    emit_objective c_matrix n_students n_distinct_topics =
      (List.range n_students).flatMap (fun i_student =>
        row_terms c_matrix i_student n_distinct_topics) := by
  unfold emit_objective row_terms
  have step : ∀ (i_student : Nat),
      (fun (out : List (Nat × Var)) (i_topic : Nat) =>
        if entry c_matrix i_student i_topic = 0 then out
        else out ++ [(entry c_matrix i_student i_topic, (i_student, i_topic))]) =
      (fun out i_topic => out ++
        (if entry c_matrix i_student i_topic = 0 then []
         else [(entry c_matrix i_student i_topic, (i_student, i_topic))])) := by
    intro i_student
    funext out i_topic
    split <;> simp
  simp only [step, foldl_append_flatMap]
  rfl


/-! ## Sums over rows and columns -/

theorem satisfies_column (x : Matrix) (n_students i_topic rhs : Nat) :
    satisfies x { lhs := column_vars n_students i_topic, rhs := rhs } ↔
      ∑ s in Finset.range n_students, entry x s i_topic = rhs := by
  unfold satisfies column_vars
  simp only [List.map_map]
  rw [← sum_map_range]
  rfl

theorem satisfies_row (x : Matrix) (i_student n_distinct_topics rhs : Nat) :
    satisfies x { lhs := row_vars i_student n_distinct_topics, rhs := rhs } ↔
      ∑ t in Finset.range n_distinct_topics, entry x i_student t = rhs := by
  unfold satisfies row_vars
  simp only [List.map_map]
  rw [← sum_map_range]
  rfl

/-- All equations of the written file hold exactly when every column and
every row of the matrix sums to `1`. -/
theorem satisfies_build_lp (c_matrix x : Matrix) (n_students n_distinct_topics : Nat) :
    (∀ eq ∈ (build_lp c_matrix n_students n_distinct_topics).constraints, satisfies x eq) ↔
      (∀ t, t < n_distinct_topics → ∑ s in Finset.range n_students, entry x s t = 1) ∧
      (∀ s, s < n_students → ∑ t in Finset.range n_distinct_topics, entry x s t = 1) := by
  simp only [build_lp, emit_topic_constraints_eq, emit_student_constraints_eq,
    List.mem_append, List.mem_map, List.mem_range]
  constructor
  · intro h
    refine ⟨fun t ht => ?_, fun s hs => ?_⟩
    · exact (satisfies_column x n_students t 1).mp (h _ (Or.inl ⟨t, ht, rfl⟩))
    · exact (satisfies_row x s n_distinct_topics 1).mp (h _ (Or.inr ⟨s, hs, rfl⟩))
  · rintro ⟨hc, hr⟩ eq (⟨t, ht, rfl⟩ | ⟨s, hs, rfl⟩)
    · exact (satisfies_column x n_students t 1).mpr (hc t ht)
    · exact (satisfies_row x s n_distinct_topics 1).mpr (hr s hs)

theorem entry_binary (x : Matrix) (hx : is_binary x) (s t : Nat) :
    entry x s t = 0 ∨ entry x s t = 1 := by
  unfold entry
  rw [List.getD_eq_getElem?_getD, List.getD_eq_getElem?_getD]
  cases hrow : x[s]? with
  | none => simp
  | some row =>
    cases hv : row[t]? with
    | none => simp [hv]
    | some v =>
      simp only [Option.getD_some, hv]
      exact hx row (List.getElem?_mem hrow) v (List.getElem?_mem hv)

theorem indicator_binary (x : Matrix) (hx : is_binary x) (s t : Nat) :
    (if entry x s t ≠ 0 then 1 else 0) = entry x s t := by
  rcases entry_binary x hx s t with h | h <;> simp [h]

theorem n_trues_student_eq (x : Matrix) (i_student n_distinct_topics : Nat) :
    n_trues_student x i_student n_distinct_topics =
      ∑ t in Finset.range n_distinct_topics, (if entry x i_student t ≠ 0 then 1 else 0) := by
  unfold n_trues_student
  rw [foldl_add_sum (fun t => if entry x i_student t ≠ 0 then 1 else 0), sum_map_range]
  simp

theorem n_trues_topic_eq (x : Matrix) (n_students i_topic : Nat) :
    n_trues_topic x n_students i_topic =
      ∑ s in Finset.range n_students, (if entry x s i_topic ≠ 0 then 1 else 0) := by
  unfold n_trues_topic
  rw [foldl_add_sum (fun s => if entry x s i_topic ≠ 0 then 1 else 0), sum_map_range]
  simp

theorem check_students_eq (x : Matrix) (n_students n_distinct_topics : Nat) :
    check_students x n_students n_distinct_topics =
      (List.range n_students).flatMap (fun i_student =>
        if n_trues_student x i_student n_distinct_topics ≠ 1 then ["Error"] else []) := by
  unfold check_students
  have step : (fun (cerr : List String) (i_student : Nat) =>
        if n_trues_student x i_student n_distinct_topics ≠ 1
        then cerr ++ ["Error"] else cerr) =
      (fun cerr i_student => cerr ++
        (if n_trues_student x i_student n_distinct_topics ≠ 1 then ["Error"] else [])) := by
    funext cerr i_student
    split <;> simp
  rw [step, foldl_append_flatMap]
  rfl

/-- The per-student check is silent exactly when every student has count
`1`. -/
theorem check_students_nil (x : Matrix) (n_students n_distinct_topics : Nat) :
    check_students x n_students n_distinct_topics = [] ↔
      ∀ s, s < n_students → n_trues_student x s n_distinct_topics = 1 := by
  rw [check_students_eq, List.flatMap_eq_nil_iff]
  constructor
  · intro h s hs
    have := h s (List.mem_range.mpr hs)
    by_contra hne
    simp [hne] at this
  · intro h s hs
    simp [h s (List.mem_range.mp hs)]

/-- The per-topic check lets `main` go on exactly when every topic has count
`1`. -/
theorem check_topics_none (x : Matrix) (n_students n_distinct_topics : Nat) :
    check_topics x n_students n_distinct_topics = none ↔
      ∀ t, t < n_distinct_topics → n_trues_topic x n_students t = 1 := by
  unfold check_topics
  rw [List.find?_eq_none]
  constructor
  · intro h t ht
    have := h t (List.mem_range.mpr ht)
    simpa using this
  · intro h t ht
    simp [h t (List.mem_range.mp ht)]


/-! ## The balance check and the shape of a run -/

theorem n_topics_loop (topics : List Topic) (init : Nat)
    (h : init + capacity_sum topics < 18446744073709551616) :
    topics.foldl (fun n_topics topic => (n_topics + topic.2) % 18446744073709551616) init =
      init + capacity_sum topics := by
  induction topics generalizing init with
  | nil => simp [capacity_sum]
  | cons topic rest ih =>
    simp only [capacity_sum, List.map_cons, List.sum_cons, List.foldl_cons] at h ⊢
    have hlt : init + topic.2 < 18446744073709551616 := by omega
    rw [Nat.mod_eq_of_lt hlt, ih (init + topic.2) (by simp only [capacity_sum]; omega)]
    simp only [capacity_sum]
    omega

/-- Without wrap-around the counter `n_topics` is the sum of the
capacities. -/
theorem n_topics_eq (topics : List Topic) (h : capacity_sum topics < 18446744073709551616) :
    n_topics topics = capacity_sum topics := by
  unfold n_topics
  rw [n_topics_loop topics 0 (by omega)]
  omega

theorem main_body_unbalanced (topics : List Topic) (student_preferences : List Student)
    (weights : List Nat) (lp_solve : LpFile → Matrix)
    (h : student_preferences.length ≠ n_topics topics) :
    main_body topics student_preferences weights lp_solve =
      { c_matrix := none, lp_file := none, lp_solve_called := false,
        cerr := [], cout := [], exit := .threw balance_error } := by
  unfold main_body
  simp [h]

theorem main_body_undefined (topics : List Topic) (student_preferences : List Student)
    (weights : List Nat) (lp_solve : LpFile → Matrix)
    (h : student_preferences.length = n_topics topics)
    (hc : build_c_matrix student_preferences topics.length weights = none) :
    main_body topics student_preferences weights lp_solve =
      { c_matrix := none, lp_file := none, lp_solve_called := false,
        cerr := [], cout := [], exit := .undefined } := by
  unfold main_body
  simp [h, hc]

theorem main_body_solved (topics : List Topic) (student_preferences : List Student)
    (weights : List Nat) (lp_solve : LpFile → Matrix) (c_matrix : Matrix)
    (h : student_preferences.length = n_topics topics)
    (hc : build_c_matrix student_preferences topics.length weights = some c_matrix) :
    main_body topics student_preferences weights lp_solve =
      { c_matrix := some c_matrix,
        lp_file := some (build_lp c_matrix student_preferences.length topics.length),
        lp_solve_called := true,
        cerr := (check_and_report topics student_preferences
          (lp_solve (build_lp c_matrix student_preferences.length topics.length))).1,
        cout := (check_and_report topics student_preferences
          (lp_solve (build_lp c_matrix student_preferences.length topics.length))).2.1,
        exit := .returned (check_and_report topics student_preferences
          (lp_solve (build_lp c_matrix student_preferences.length topics.length))).2.2 } := by
  unfold main_body
  simp [h, hc]

/-- When a run has written an LP file, it is the file built from the cost
matrix of that run. -/
theorem main_body_lp_file (topics : List Topic) (student_preferences : List Student)
    (weights : List Nat) (lp_solve : LpFile → Matrix) (lp : LpFile)
    (h : (main_body topics student_preferences weights lp_solve).lp_file = some lp) :
    ∃ c_matrix, build_c_matrix student_preferences topics.length weights = some c_matrix ∧
      lp = build_lp c_matrix student_preferences.length topics.length := by
  by_cases hb : student_preferences.length = n_topics topics
  · cases hc : build_c_matrix student_preferences topics.length weights with
    | none =>
      rw [main_body_undefined _ _ _ _ hb hc] at h
      simp at h
    | some c_matrix =>
      rw [main_body_solved _ _ _ _ c_matrix hb hc] at h
      simp only [Option.some.injEq] at h
      exact ⟨c_matrix, rfl, h.symm⟩
  · rw [main_body_unbalanced _ _ _ _ hb] at h
    simp at h

theorem check_and_report_pass (topics : List Topic) (student_preferences : List Student)
    (x : Matrix)
    (h : check_topics x student_preferences.length topics.length = none) :
    check_and_report topics student_preferences x =
      (check_students x student_preferences.length topics.length,
        (report_pairs x student_preferences.length topics.length).map
          (report_line topics student_preferences), 0) := by
  unfold check_and_report
  simp [h]

theorem check_and_report_fail (topics : List Topic) (student_preferences : List Student)
    (x : Matrix) (i_topic : Nat)
    (h : check_topics x student_preferences.length topics.length = some i_topic) :
    check_and_report topics student_preferences x =
      (check_students x student_preferences.length topics.length ++ ["Error"], [], 1) := by
  unfold check_and_report
  simp [h]

/-! ## Claims about the balance check, the LP file and the checks -/

/-- Claim C4. When the capacities of the topics do not add up to the number
of students, `main` throws the `std::logic_error` of line 114 and has by then
built no cost matrix, written no LP file, not called `lp_solve` and printed
nothing; when they do add up, that exception is not thrown. The counter
`n_topics` is a `std::size_t`, so the sum is taken below `2^64`. -/
theorem balance_check_guards_pipeline (topics : List Topic)
    (student_preferences : List Student) (weights : List Nat) (lp_solve : LpFile → Matrix)
    (hfit : capacity_sum topics < 18446744073709551616) :
    (capacity_sum topics ≠ student_preferences.length →
      main_body topics student_preferences weights lp_solve =
        { c_matrix := none, lp_file := none, lp_solve_called := false,
          cerr := [], cout := [], exit := .threw balance_error }) ∧
    (capacity_sum topics = student_preferences.length →
      (main_body topics student_preferences weights lp_solve).exit ≠
        .threw balance_error) := by
  have hn := n_topics_eq topics hfit
  constructor
  · intro hne
    exact main_body_unbalanced _ _ _ _ (by rw [hn]; exact fun h => hne h.symm)
  · intro heq
    have hb : student_preferences.length = n_topics topics := by rw [hn]; exact heq.symm
    cases hc : build_c_matrix student_preferences topics.length weights with
    | none => rw [main_body_undefined _ _ _ _ hb hc]; simp
    | some c_matrix => rw [main_body_solved _ _ _ _ c_matrix hb hc]; simp

/-- Witness for C4: three students and two topics of capacity one are
rejected before anything is built, written or solved. -/
theorem balance_check_guards_pipeline_witness :
    main_body [("X", 1), ("Y", 1)] [("A", [1]), ("B", [2]), ("C", [1])] [2, 1]
        (fun _ => []) =
      { c_matrix := none, lp_file := none, lp_solve_called := false,
        cerr := [], cout := [], exit := .threw balance_error } :=
  (balance_check_guards_pipeline [("X", 1), ("Y", 1)] [("A", [1]), ("B", [2]), ("C", [1])]
    [2, 1] (fun _ => []) (by decide)).1 (by decide)

/-- Claim C2. On a balanced input whose cost matrix is built, every answer of
the solving engine that is a 0/1 matrix of the right shape satisfying all
equations written to the LP file passes both checks: the per-student check
prints no `Error`, the per-topic check finds no offending topic, and `main`
returns `0`. -/
theorem solver_answer_passes_checks (topics : List Topic)
    (student_preferences : List Student) (weights : List Nat) (lp_solve : LpFile → Matrix)
    (c_matrix : Matrix)
    (hfit : capacity_sum topics < 18446744073709551616)
    (hbal : capacity_sum topics = student_preferences.length)
    (hc : build_c_matrix student_preferences topics.length weights = some c_matrix)
    (hx : feasible (build_lp c_matrix student_preferences.length topics.length)
      student_preferences.length topics.length
      (lp_solve (build_lp c_matrix student_preferences.length topics.length))) :
    check_students (lp_solve (build_lp c_matrix student_preferences.length topics.length))
        student_preferences.length topics.length = [] ∧
    check_topics (lp_solve (build_lp c_matrix student_preferences.length topics.length))
        student_preferences.length topics.length = none ∧
    (main_body topics student_preferences weights lp_solve).cerr = [] ∧
    (main_body topics student_preferences weights lp_solve).exit = .returned 0 := by
  obtain ⟨_, hbin, hsat⟩ := hx
  rw [satisfies_build_lp] at hsat
  obtain ⟨hcol, hrow⟩ := hsat
  have hs : check_students
      (lp_solve (build_lp c_matrix student_preferences.length topics.length))
      student_preferences.length topics.length = [] := by
    rw [check_students_nil]
    intro s hs
    rw [n_trues_student_eq]
    simp only [indicator_binary _ hbin]
    exact hrow s hs
  have ht : check_topics
      (lp_solve (build_lp c_matrix student_preferences.length topics.length))
      student_preferences.length topics.length = none := by
    rw [check_topics_none]
    intro t ht
    rw [n_trues_topic_eq]
    simp only [indicator_binary _ hbin]
    exact hcol t ht
  have hb : student_preferences.length = n_topics topics := by
    rw [n_topics_eq topics hfit]; exact hbal.symm
  refine ⟨hs, ht, ?_, ?_⟩
  · rw [main_body_solved _ _ _ _ c_matrix hb hc]
    simp only
    rw [check_and_report_pass _ _ _ ht]
    exact hs
  · rw [main_body_solved _ _ _ _ c_matrix hb hc]
    simp only
    rw [check_and_report_pass _ _ _ ht]

/-- Witness for C2: two students, two topics, weights `[2, 1]`, and the
engine answering with the identity matrix. -/
theorem solver_answer_passes_checks_witness :
    (main_body [("X", 1), ("Y", 1)] [("A", [1, 2]), ("B", [2, 1])] [2, 1]
        (fun _ => [[1, 0], [0, 1]])).cerr = [] ∧
    (main_body [("X", 1), ("Y", 1)] [("A", [1, 2]), ("B", [2, 1])] [2, 1]
        (fun _ => [[1, 0], [0, 1]])).exit = .returned 0 :=
  (solver_answer_passes_checks [("X", 1), ("Y", 1)] [("A", [1, 2]), ("B", [2, 1])] [2, 1]
    (fun _ => [[1, 0], [0, 1]]) [[2, 1], [1, 2]] (by decide) (by decide) (by decide)
    (by decide)).2.2

/-! ## What the LP file contains -/

theorem mem_column_vars (n_students i_topic : Nat) (v : Var) :
    v ∈ column_vars n_students i_topic ↔ v.1 < n_students ∧ v.2 = i_topic := by
  unfold column_vars
  simp only [List.mem_map, List.mem_range]
  constructor
  · rintro ⟨s, hs, rfl⟩; exact ⟨hs, rfl⟩
  · rintro ⟨hs, ht⟩; exact ⟨v.1, hs, by rw [← ht]⟩

theorem mem_row_vars (i_student n_distinct_topics : Nat) (v : Var) :
    v ∈ row_vars i_student n_distinct_topics ↔ v.1 = i_student ∧ v.2 < n_distinct_topics := by
  unfold row_vars
  simp only [List.mem_map, List.mem_range]
  constructor
  · rintro ⟨t, ht, rfl⟩; exact ⟨rfl, ht⟩
  · rintro ⟨hs, ht⟩; exact ⟨v.2, ht, by rw [← hs]⟩

theorem nodup_column_vars (n_students i_topic : Nat) :
    (column_vars n_students i_topic).Nodup := by
  unfold column_vars
  refine List.Nodup.map ?_ (List.nodup_range _)
  intro a b h
  exact (Prod.mk.inj h).1

theorem nodup_row_vars (i_student n_distinct_topics : Nat) :
    (row_vars i_student n_distinct_topics).Nodup := by
  unfold row_vars
  refine List.Nodup.map ?_ (List.nodup_range _)
  intro a b h
  exact (Prod.mk.inj h).2

theorem pairwise_ne_range (n : Nat) : (List.range n).Pairwise (fun a b => a ≠ b) :=
  List.nodup_range n

theorem nodup_emit_binaries (n_students n_distinct_topics : Nat) :
    (emit_binaries n_students n_distinct_topics).Nodup := by
  rw [emit_binaries_eq, List.nodup_flatMap]
  refine ⟨fun t _ => nodup_column_vars n_students t, ?_⟩
  refine List.Pairwise.imp ?_ (pairwise_ne_range n_distinct_topics)
  intro a b hab v hva hvb
  rw [mem_column_vars] at hva hvb
  exact hab (hva.2.symm.trans hvb.2)

theorem mem_emit_binaries (n_students n_distinct_topics : Nat) (v : Var) :
    v ∈ emit_binaries n_students n_distinct_topics ↔
      v.1 < n_students ∧ v.2 < n_distinct_topics := by
  rw [emit_binaries_eq, List.mem_flatMap]
  constructor
  · rintro ⟨t, ht, hv⟩
    rw [mem_column_vars] at hv
    exact ⟨hv.1, by rw [hv.2]; exact List.mem_range.mp ht⟩
  · rintro ⟨hs, ht⟩
    exact ⟨v.2, List.mem_range.mpr ht, (mem_column_vars _ _ _).mpr ⟨hs, rfl⟩⟩

theorem nodup_row_major_pairs (n_students n_distinct_topics : Nat) :
    (row_major_pairs n_students n_distinct_topics).Nodup := by
  unfold row_major_pairs
  rw [List.nodup_flatMap]
  refine ⟨fun s _ => nodup_row_vars s n_distinct_topics, ?_⟩
  refine List.Pairwise.imp ?_ (pairwise_ne_range n_students)
  intro a b hab v hva hvb
  rw [mem_row_vars] at hva hvb
  exact hab (hva.1.symm.trans hvb.1)

theorem filter_map_flatMap {α β : Type} (p : α → Bool) (g : α → β) (l : List α) :
    (l.filter p).map g = l.flatMap (fun a => if p a = true then [g a] else []) := by
  induction l with
  | nil => rfl
  | cons a l ih =>
    by_cases h : p a = true
    · simp [List.filter_cons, h, ih]
    · simp [List.filter_cons, h, ih]

theorem filter_flatMap_eq {α β : Type} (p : β → Bool) (f : α → List β) (l : List α) :
    (l.flatMap f).filter p = l.flatMap (fun a => (f a).filter p) := by
  induction l with
  | nil => rfl
  | cons a l ih => simp [List.filter_append, ih]

theorem map_flatMap_eq {α β γ : Type} (g : β → γ) (f : α → List β) (l : List α) :
    (l.flatMap f).map g = l.flatMap (fun a => (f a).map g) := by
  induction l with
  | nil => rfl
  | cons a l ih => simp [ih]

theorem flatMap_map_eq {α β γ : Type} (g : α → β) (f : β → List γ) (l : List α) :
    (l.map g).flatMap f = l.flatMap (fun a => f (g a)) := by
  induction l with
  | nil => rfl
  | cons a l ih => simp [ih]

/-- The objective written by the loops is the objective in the words of the
specification. -/
theorem emit_objective_spec (c_matrix : Matrix) (n_students n_distinct_topics : Nat) :
    emit_objective c_matrix n_students n_distinct_topics =
      spec_objective c_matrix n_students n_distinct_topics := by
  rw [emit_objective_eq]
  unfold spec_objective row_major_pairs row_terms
  rw [filter_flatMap_eq, map_flatMap_eq]
  congr 1
  funext s
  rw [filter_map_flatMap]
  unfold row_vars
  rw [flatMap_map_eq]
  congr 1
  funext t
  by_cases h : entry c_matrix s t = 0 <;> simp [h]

theorem sum_map_flatMap {α β : Type} (g : β → Nat) (f : α → List β) (l : List α) :
    ((l.flatMap f).map g).sum = (l.map (fun a => ((f a).map g).sum)).sum := by
  induction l with
  | nil => rfl
  | cons a l ih => simp [ih]

/-- The written objective evaluates to the full double sum. -/
theorem objective_value_emit (c_matrix x : Matrix) (n_students n_distinct_topics : Nat) :
    objective_value (emit_objective c_matrix n_students n_distinct_topics) x =
      ∑ s in Finset.range n_students, ∑ t in Finset.range n_distinct_topics,
        entry c_matrix s t * entry x s t := by
  rw [emit_objective_eq]
  unfold objective_value
  rw [sum_map_flatMap, sum_map_range]
  refine Finset.sum_congr rfl (fun s _ => ?_)
  unfold row_terms
  rw [sum_map_flatMap, sum_map_range]
  refine Finset.sum_congr rfl (fun t _ => ?_)
  by_cases h : entry c_matrix s t = 0 <;> simp [h]

theorem vars_spec_objective (c_matrix : Matrix) (n_students n_distinct_topics : Nat) :
    (spec_objective c_matrix n_students n_distinct_topics).map (fun term => term.2) =
      (row_major_pairs n_students n_distinct_topics).filter
        (fun v => decide (entry c_matrix v.1 v.2 ≠ 0)) := by
  unfold spec_objective
  rw [List.map_map]
  exact List.map_id _

/-- Claim C9. The objective written to the LP file consists of the terms
`C[s][t] x_s_t` for exactly the pairs with a non-zero cost, in row-major
order; under any assignment `x` of the variables it evaluates to the full sum
of `C[s][t] * x[s][t]` over all students and topics; and no variable occurs
in it twice. -/
theorem objective_written_is_total_utility (c_matrix x : Matrix)
    (n_students n_distinct_topics : Nat) :
    (build_lp c_matrix n_students n_distinct_topics).objective =
      spec_objective c_matrix n_students n_distinct_topics ∧
    objective_value (build_lp c_matrix n_students n_distinct_topics).objective x =
      ∑ s in Finset.range n_students, ∑ t in Finset.range n_distinct_topics,
        entry c_matrix s t * entry x s t ∧
    ((build_lp c_matrix n_students n_distinct_topics).objective.map
      (fun term => term.2)).Nodup := by
  refine ⟨emit_objective_spec _ _ _, objective_value_emit _ _ _ _, ?_⟩
  show ((emit_objective c_matrix n_students n_distinct_topics).map (fun term => term.2)).Nodup
  rw [emit_objective_spec, vars_spec_objective]
  exact (nodup_row_major_pairs _ _).filter _

/-! ## The checks and the report -/

theorem sum_indicator_filter {α : Type} (p : α → Bool) (l : List α) :
    (l.map (fun a => if p a = true then 1 else 0)).sum = (l.filter p).length := by
  induction l with
  | nil => rfl
  | cons a l ih =>
    by_cases h : p a = true
    · simp [List.filter_cons, h, ih]; omega
    · simp [List.filter_cons, h, ih]

/-- The counter of the per-topic check is the number of students assigned to
the topic. -/
theorem n_trues_topic_count (x : Matrix) (n_students i_topic : Nat) :
    n_trues_topic x n_students i_topic = assigned_count x n_students i_topic := by
  unfold n_trues_topic assigned_count
  rw [foldl_add_sum (fun s => if entry x s i_topic ≠ 0 then 1 else 0), Nat.zero_add,
    ← sum_indicator_filter]
  congr 1
  refine List.map_congr_left (fun s _ => ?_)
  by_cases h : entry x s i_topic = 0 <;> simp [h]

/-- The per-topic check makes `main` return `1` with nothing printed exactly
when some topic has a count different from `1`. -/
theorem check_and_report_fails_iff (topics : List Topic) (student_preferences : List Student)
    (x : Matrix) :
    ((check_and_report topics student_preferences x).2.2 = 1 ∧
      (check_and_report topics student_preferences x).2.1 = []) ↔
    ∃ t, t < topics.length ∧ assigned_count x student_preferences.length t ≠ 1 := by
  cases hck : check_topics x student_preferences.length topics.length with
  | none =>
    rw [check_and_report_pass _ _ _ hck]
    rw [check_topics_none] at hck
    constructor
    · rintro ⟨h, _⟩; simp at h
    · rintro ⟨t, ht, hne⟩
      rw [← n_trues_topic_count] at hne
      exact absurd (hck t ht) hne
  | some i_topic =>
    rw [check_and_report_fail _ _ _ i_topic hck]
    constructor
    · intro _
      by_contra hcon
      push_neg at hcon
      have hnone : check_topics x student_preferences.length topics.length = none := by
        rw [check_topics_none]
        intro t ht
        rw [n_trues_topic_count]
        exact hcon t ht
      rw [hnone] at hck
      simp at hck
    · intro _; exact ⟨rfl, rfl⟩

/-- Evaluation for C6: the engine answer `[[1,1],[0,0]]` gives student `A`
two topics and student `B` none; `main` prints `Error` twice and then still
prints an assignment line and returns `0`. -/
theorem incomplete_student_still_reported :
    main ["X", "Y"] [("A", [1, 2]), ("B", [2, 1])] [2, 1] (fun _ => [[1, 1], [0, 0]]) =
      { c_matrix := some [[2, 1], [1, 2]],
        lp_file := some (build_lp [[2, 1], [1, 2]] 2 2),
        lp_solve_called := true,
        cerr := ["Error", "Error"],
        cout := ["A get the topic X"],
        exit := .returned 0 } := by
  decide

/-- Evaluation for C7: a preference entry `0` is rejected by the reader, but
an entry above the number of topics, and a preference list longer than the
weight sequence, are not: the cost matrix loop indexes `c_matrix`, or
`weights`, outside its bounds. -/
theorem malformed_preferences_outcome (lp_solve : LpFile → Matrix) :
    (main ["X"] [("A", [0])] [5] lp_solve).exit =
      .threw "Parsing error in student preference file at line 1" ∧
    (main ["X"] [("A", [2])] [5] lp_solve).exit = .undefined ∧
    (main ["X"] [("A", [1])] [] lp_solve).exit = .undefined := by
  refine ⟨?_, ?_, ?_⟩ <;> rfl

/-! ## The reported mapping -/

theorem find_range_unique (p : Nat → Bool) (n t0 : Nat) (h0 : t0 < n) (hp : p t0 = true)
    (hu : ∀ t, t < n → p t = true → t = t0) : (List.range n).find? p = some t0 := by
  induction n with
  | zero => omega
  | succ n ih =>
    rw [List.range_succ, List.find?_append]
    by_cases h : t0 < n
    · rw [ih h (fun t ht => hu t (by omega))]; rfl
    · have hn : t0 = n := by omega
      subst hn
      have hnone : (List.range t0).find? p = none := by
        rw [List.find?_eq_none]
        intro t ht hpt
        have hlt := List.mem_range.mp ht
        have := hu t (by omega) hpt
        omega
      simp [hnone, hp]

theorem unique_of_sum_one (f : Nat → Nat) (n : Nat) (hf : ∀ t, t < n → f t = 0 ∨ f t = 1)
    (hs : ∑ t in Finset.range n, f t = 1) :
    ∃ t0, t0 < n ∧ f t0 = 1 ∧ ∀ t, t < n → t ≠ t0 → f t = 0 := by
  have hex : ∃ t0 ∈ Finset.range n, f t0 ≠ 0 := by
    by_contra hcon
    push_neg at hcon
    rw [Finset.sum_eq_zero hcon] at hs
    omega
  obtain ⟨t0, ht0, hne⟩ := hex
  have ht0n := Finset.mem_range.mp ht0
  have h1 : f t0 = 1 := by
    rcases hf t0 ht0n with h | h
    · exact absurd h hne
    · exact h
  refine ⟨t0, ht0n, h1, ?_⟩
  intro t ht hne2
  have hsplit := Finset.add_sum_erase (Finset.range n) f ht0
  rw [hs, h1] at hsplit
  have hz : ∑ x in (Finset.range n).erase t0, f x = 0 := by omega
  rw [Finset.sum_eq_zero_iff] at hz
  exact hz t (Finset.mem_erase.mpr ⟨hne2, Finset.mem_range.mpr ht⟩)

/-- A student whose count is `1` has exactly one set entry, and the report
loop names it. -/
theorem reported_topic_unique (x : Matrix) (n_distinct_topics s : Nat)
    (h : n_trues_student x s n_distinct_topics = 1) :
    (List.range n_distinct_topics).find? (fun t => decide (entry x s t ≠ 0)) =
      some (reported_topic x n_distinct_topics s) ∧
    reported_topic x n_distinct_topics s < n_distinct_topics ∧
    entry x s (reported_topic x n_distinct_topics s) ≠ 0 ∧
    ∀ t, t < n_distinct_topics → entry x s t ≠ 0 →
      t = reported_topic x n_distinct_topics s := by
  rw [n_trues_student_eq] at h
  obtain ⟨t0, ht0, h1, hrest⟩ := unique_of_sum_one
    (fun t => if entry x s t ≠ 0 then 1 else 0) n_distinct_topics
    (fun t _ => by by_cases hz : entry x s t = 0 <;> simp [hz]) h
  have hne0 : entry x s t0 ≠ 0 := by
    intro hz
    simp [hz] at h1
  have huniq : ∀ t, t < n_distinct_topics → entry x s t ≠ 0 → t = t0 := by
    intro t ht hne
    by_contra hcon
    have := hrest t ht hcon
    simp [hne] at this
  have hfind : (List.range n_distinct_topics).find? (fun t => decide (entry x s t ≠ 0)) =
      some t0 :=
    find_range_unique _ _ t0 ht0 (by simpa using hne0)
      (fun t ht hp => huniq t ht (by simpa using hp))
  have hrep : reported_topic x n_distinct_topics s = t0 := by
    unfold reported_topic
    rw [hfind]
    rfl
  rw [hrep]
  exact ⟨hfind, ht0, hne0, huniq⟩

theorem flatMap_eq_map_of {α β : Type} (f : α → List β) (g : α → β) (l : List α)
    (h : ∀ a ∈ l, f a = [g a]) : l.flatMap f = l.map g := by
  induction l with
  | nil => rfl
  | cons a l ih =>
    rw [List.flatMap_cons, List.map_cons, h a (List.mem_cons_self a l),
      ih (fun b hb => h b (List.mem_cons_of_mem a hb))]
    rfl

theorem report_pairs_eq (x : Matrix) (n_students n_distinct_topics : Nat) :
    report_pairs x n_students n_distinct_topics =
      (List.range n_students).flatMap (fun s =>
        match (List.range n_distinct_topics).find? (fun t => decide (entry x s t ≠ 0)) with
        | some t => [(s, t)]
        | none => []) := by
  unfold report_pairs
  have step : (fun (out : List (Nat × Nat)) (i_student : Nat) =>
        match (List.range n_distinct_topics).find? (fun i_topic =>
            decide (entry x i_student i_topic ≠ 0)) with
        | some i_topic => out ++ [(i_student, i_topic)]
        | none => out) =
      (fun out i_student => out ++
        (match (List.range n_distinct_topics).find? (fun i_topic =>
            decide (entry x i_student i_topic ≠ 0)) with
        | some i_topic => [(i_student, i_topic)]
        | none => [])) := by
    funext out i_student
    split <;> simp
  rw [step, foldl_append_flatMap]
  rfl

/-- When every student has count `1`, the report loop prints one pair per
student, in student order, naming the reported topic. -/
theorem report_pairs_complete (x : Matrix) (n_students n_distinct_topics : Nat)
    (h : ∀ s, s < n_students → n_trues_student x s n_distinct_topics = 1) :
    report_pairs x n_students n_distinct_topics =
      (List.range n_students).map (fun s => (s, reported_topic x n_distinct_topics s)) := by
  rw [report_pairs_eq]
  refine flatMap_eq_map_of _ _ _ (fun s hs => ?_)
  rw [(reported_topic_unique x n_distinct_topics s (h s (List.mem_range.mp hs))).1]

/-! ## The cost matrix -/

theorem pref_index_eq (p : Nat) (h1 : 1 ≤ p) (h2 : p < 4294967296) : pref_index p = p - 1 := by
  unfold pref_index
  omega

/-- The inner loop on well-formed preferences: it stays inside the row and
the weights, writes `weights[i_pref + k]` at the topic ranked at position
`k`, and leaves the other entries as they were. -/
theorem fill_row_spec (weights : List Nat) (prefs : List Nat) :
    ∀ (i_pref : Nat) (row : List Nat), prefs.Nodup →
      (∀ p ∈ prefs, 1 ≤ p ∧ p ≤ row.length ∧ p < 4294967296) →
      i_pref + prefs.length ≤ weights.length →
      ∃ filled, fill_row weights i_pref prefs row = some filled ∧
        filled.length = row.length ∧
        ∀ t, t < row.length →
          (∀ k : Nat, prefs[k]? = some (t + 1) → filled[t]? = weights[i_pref + k]?) ∧
          (t + 1 ∉ prefs → filled[t]? = row[t]?) := by
  induction prefs with
  | nil =>
    intro i_pref row _ _ _
    exact ⟨row, rfl, rfl, fun t _ => ⟨fun k hk => by simp at hk, fun _ => rfl⟩⟩
  | cons p rest ih =>
    intro i_pref row hnodup hrange hlen
    obtain ⟨hp1, hp2, hp3⟩ := hrange p (List.mem_cons_self p rest)
    have hidx := pref_index_eq p hp1 hp3
    simp only [List.length_cons] at hlen
    obtain ⟨w, hw⟩ : ∃ w, weights[i_pref]? = some w :=
      ⟨_, List.getElem?_eq_getElem (show i_pref < weights.length by omega)⟩
    have hin : p - 1 < row.length := by omega
    obtain ⟨hpn, hrn⟩ := List.nodup_cons.mp hnodup
    obtain ⟨filled, hfill, hflen, hspec⟩ :=
      ih (i_pref + 1) (row.set (p - 1) w) hrn
        (fun q hq => by
          rw [List.length_set]
          exact hrange q (List.mem_cons_of_mem p hq))
        (by omega)
    rw [List.length_set] at hflen hspec
    refine ⟨filled, ?_, hflen, ?_⟩
    · simp only [fill_row, hw, hidx, hin, if_true]
      exact hfill
    · intro t ht
      obtain ⟨hk, hno⟩ := hspec t ht
      constructor
      · intro k hkp
        cases k with
        | zero =>
          simp only [List.getElem?_cons_zero, Option.some.injEq] at hkp
          have hnot : t + 1 ∉ rest := by rw [← hkp]; exact hpn
          rw [hno hnot, Nat.add_zero, hw]
          have htp : p - 1 = t := by omega
          rw [htp]
          exact List.getElem?_set_self ht
        | succ k =>
          simp only [List.getElem?_cons_succ] at hkp
          rw [hk k hkp, show i_pref + (k + 1) = i_pref + 1 + k by omega]
      · intro hnot
        have hne : t + 1 ≠ p := fun h => hnot (by rw [h]; exact List.mem_cons_self p rest)
        have hnr : t + 1 ∉ rest := fun h => hnot (List.mem_cons_of_mem p h)
        rw [hno hnr]
        exact List.getElem?_set_ne (by omega)

/-- The outer loop: when the inner loop succeeds on a fresh row for every
student, the rows after the first `pre.length` are replaced one by one by the
filled rows. -/
theorem fill_rows_spec (weights : List Nat) (zero : List Nat) (rest : List Student) :
    ∀ (pre : Matrix),
      (∀ sp ∈ rest, ∃ r, fill_row weights 0 sp.2 zero = some r) →
      ∃ rows, fill_rows weights pre.length rest
          (pre ++ List.replicate rest.length zero) = some (pre ++ rows) ∧
        rows.length = rest.length ∧
        ∀ (s : Nat) (sp : Student), rest[s]? = some sp →
          ∃ r, rows[s]? = some r ∧ fill_row weights 0 sp.2 zero = some r := by
  induction rest with
  | nil =>
    intro pre _
    refine ⟨[], ?_, rfl, fun s sp h => by simp at h⟩
    simp [fill_rows]
  | cons sp tl ih =>
    intro pre hall
    obtain ⟨r, hr⟩ := hall sp (List.mem_cons_self sp tl)
    obtain ⟨rows, hrows, hlen, hspec⟩ :=
      ih (pre ++ [r]) (fun q hq => hall q (List.mem_cons_of_mem sp hq))
    refine ⟨r :: rows, ?_, by simp [hlen], ?_⟩
    · have hget : (pre ++ List.replicate (sp :: tl).length zero)[pre.length]? = some zero := by
        rw [List.getElem?_append_right (Nat.le_refl _)]
        simp only [Nat.sub_self, List.length_cons, List.replicate_succ,
          List.getElem?_cons_zero]
      have hset : (pre ++ List.replicate (sp :: tl).length zero).set pre.length r =
          (pre ++ [r]) ++ List.replicate tl.length zero := by
        simp [List.replicate_succ]
      have hlen1 : pre.length + 1 = (pre ++ [r]).length := by simp
      simp only [fill_rows, hget, hr, hset]
      rw [hlen1, hrows]
      simp
    · intro s q hq
      cases s with
      | zero =>
        simp only [List.getElem?_cons_zero, Option.some.injEq] at hq
        subst hq
        exact ⟨r, by simp, hr⟩
      | succ s =>
        simp only [List.getElem?_cons_succ] at hq
        obtain ⟨r2, hr2, hf2⟩ := hspec s q hq
        exact ⟨r2, by simpa using hr2, hf2⟩

theorem entry_of_rows (m : Matrix) (s t : Nat) (r : List Nat) (v : Nat)
    (hr : m[s]? = some r) (hv : r[t]? = some v) : entry m s t = v := by
  simp only [entry, List.getD_eq_getElem?_getD, hr, hv, Option.getD_some]

/-- Claim C3. When every student's preferences are distinct topic ids in
`1..T` (values of type `unsigned`) and no preference list is longer than the
weight sequence, the loop of lines 116-127 builds a matrix with one row per
student and `T` columns whose entry for student `s` and topic `t` is
`weights[k]` if topic `t+1` stands at position `k` of the student's list and
`0` if it does not occur there. -/
theorem cost_matrix_built (student_preferences : List Student) (n_distinct_topics : Nat)
    (weights : List Nat)
    (hdistinct : ∀ sp ∈ student_preferences, sp.2.Nodup)
    (hrange : ∀ sp ∈ student_preferences, ∀ p ∈ sp.2, 1 ≤ p ∧ p ≤ n_distinct_topics)
    (hunsigned : ∀ sp ∈ student_preferences, ∀ p ∈ sp.2, p < 4294967296)
    (hweights : ∀ sp ∈ student_preferences, sp.2.length ≤ weights.length) :
    ∃ c_matrix, build_c_matrix student_preferences n_distinct_topics weights = some c_matrix ∧
      has_shape c_matrix student_preferences.length n_distinct_topics ∧
      ∀ (s : Nat) (sp : Student), student_preferences[s]? = some sp → ∀ t, t < n_distinct_topics →
        (∀ k : Nat, sp.2[k]? = some (t + 1) → weights[k]? = some (entry c_matrix s t)) ∧
        (t + 1 ∉ sp.2 → entry c_matrix s t = 0) := by
  have hrow : ∀ sp ∈ student_preferences,
      ∃ filled, fill_row weights 0 sp.2 (List.replicate n_distinct_topics 0) = some filled ∧
        filled.length = n_distinct_topics ∧
        ∀ t, t < n_distinct_topics →
          (∀ k : Nat, sp.2[k]? = some (t + 1) → filled[t]? = weights[k]?) ∧
          (t + 1 ∉ sp.2 → filled[t]? = some 0) := by
    intro sp hsp
    obtain ⟨filled, hfill, hflen, hspec⟩ :=
      fill_row_spec weights sp.2 0 (List.replicate n_distinct_topics 0) (hdistinct sp hsp)
        (fun p hp => by
          rw [List.length_replicate]
          exact ⟨(hrange sp hsp p hp).1, (hrange sp hsp p hp).2, hunsigned sp hsp p hp⟩)
        (by have := hweights sp hsp; omega)
    rw [List.length_replicate] at hflen hspec
    refine ⟨filled, hfill, hflen, fun t ht => ?_⟩
    obtain ⟨hk, hno⟩ := hspec t ht
    refine ⟨fun k hkp => ?_, fun hnot => ?_⟩
    · rw [hk k hkp, Nat.zero_add]
    · rw [hno hnot]
      simp [List.getElem?_replicate, ht]
  obtain ⟨rows, hrows, hlen, hspec⟩ :=
    fill_rows_spec weights (List.replicate n_distinct_topics 0) student_preferences []
      (fun sp hsp => ⟨_, (Classical.choose_spec (hrow sp hsp)).1⟩)
  simp only [List.nil_append, List.length_nil] at hrows
  refine ⟨rows, hrows, ⟨hlen, ?_⟩, ?_⟩
  · intro row hmem
    obtain ⟨s, hs⟩ := List.getElem?_of_mem hmem
    have hslt : s < student_preferences.length := by
      rw [← hlen]
      exact (List.getElem?_eq_some.mp hs).1
    obtain ⟨r, hr, hfr⟩ := hspec s _ (List.getElem?_eq_getElem hslt)
    obtain ⟨filled, hfill, hflen, _⟩ := hrow _ (List.getElem_mem hslt)
    rw [hs] at hr
    rw [hfr] at hfill
    cases hr
    cases hfill
    exact hflen
  · intro s sp hsp t ht
    obtain ⟨r, hr, hfr⟩ := hspec s sp hsp
    obtain ⟨filled, hfill, hflen, hent⟩ := hrow sp (List.getElem?_mem hsp)
    rw [hfr] at hfill
    cases hfill
    obtain ⟨hk, hno⟩ := hent t ht
    obtain ⟨v, hv⟩ : ∃ v, r[t]? = some v :=
      ⟨_, List.getElem?_eq_getElem (show t < r.length by omega)⟩
    have he := entry_of_rows rows s t r v hr hv
    refine ⟨fun k hkp => ?_, fun hnot => ?_⟩
    · rw [he, ← hv, hk k hkp]
    · have h0 := hno hnot
      rw [hv] at h0
      rw [he]
      exact Option.some.inj h0

/-- Witness for C3: the preference list `[3, 1]` with weights `[10, 5, 1]`
over three topics gives the row `[5, 0, 10]`. -/
theorem cost_matrix_built_witness :
    ∃ c_matrix, build_c_matrix [("A", [3, 1])] 3 [10, 5, 1] = some c_matrix ∧
      has_shape c_matrix 1 3 ∧
      ∀ (s : Nat) (sp : Student), [(("A", [3, 1]) : Student)][s]? = some sp → ∀ t, t < 3 →
        (∀ k : Nat, sp.2[k]? = some (t + 1) → [10, 5, 1][k]? = some (entry c_matrix s t)) ∧
        (t + 1 ∉ sp.2 → entry c_matrix s t = 0) :=
  cost_matrix_built [("A", [3, 1])] 3 [10, 5, 1] (by decide) (by decide) (by decide)
    (by decide)

/-- The row of the example of C3, evaluated. -/
theorem cost_matrix_example : build_c_matrix [("A", [3, 1])] 3 [10, 5, 1] = some [[5, 0, 10]] := by
  decide

/-! ## Optimality of the reported assignment -/

/-- A feasible answer passes both consistency checks. -/
theorem feasible_passes_checks (c_matrix x : Matrix) (n_students n_distinct_topics : Nat)
    (hx : feasible (build_lp c_matrix n_students n_distinct_topics)
      n_students n_distinct_topics x) :
    check_students x n_students n_distinct_topics = [] ∧
    check_topics x n_students n_distinct_topics = none := by
  obtain ⟨_, hbin, hsat⟩ := hx
  rw [satisfies_build_lp] at hsat
  obtain ⟨hcol, hrow⟩ := hsat
  constructor
  · rw [check_students_nil]
    intro s hs
    rw [n_trues_student_eq]
    simp only [indicator_binary _ hbin]
    exact hrow s hs
  · rw [check_topics_none]
    intro t ht
    rw [n_trues_topic_eq]
    simp only [indicator_binary _ hbin]
    exact hcol t ht

theorem entry_assignment_matrix (n_students n_distinct_topics : Nat) (assigned : Nat → Nat)
    (s t : Nat) (hs : s < n_students) (ht : t < n_distinct_topics) :
    entry (assignment_matrix n_students n_distinct_topics assigned) s t =
      if assigned s = t then 1 else 0 := by
  have hrow : (assignment_matrix n_students n_distinct_topics assigned)[s]? =
      some ((List.range n_distinct_topics).map (fun t => if assigned s = t then 1 else 0)) := by
    unfold assignment_matrix
    rw [List.getElem?_map, List.getElem?_range hs]
    rfl
  have hv : ((List.range n_distinct_topics).map
      (fun t => if assigned s = t then 1 else 0))[t]? =
      some (if assigned s = t then 1 else 0) := by
    rw [List.getElem?_map, List.getElem?_range ht]
    rfl
  exact entry_of_rows _ s t _ _ hrow hv

theorem has_shape_assignment_matrix (n_students n_distinct_topics : Nat)
    (assigned : Nat → Nat) :
    has_shape (assignment_matrix n_students n_distinct_topics assigned)
      n_students n_distinct_topics := by
  unfold has_shape assignment_matrix
  refine ⟨by simp, ?_⟩
  intro row hrow
  obtain ⟨s, _, rfl⟩ := List.mem_map.mp hrow
  simp

theorem is_binary_assignment_matrix (n_students n_distinct_topics : Nat)
    (assigned : Nat → Nat) :
    is_binary (assignment_matrix n_students n_distinct_topics assigned) := by
  unfold is_binary assignment_matrix
  intro row hrow v hv
  obtain ⟨s, _, rfl⟩ := List.mem_map.mp hrow
  obtain ⟨t, _, rfl⟩ := List.mem_map.mp hv
  by_cases h : assigned s = t <;> simp [h]

/-- Counting a column of indicator entries counts the students sent to the
topic. -/
theorem sum_indicator_count (n_students : Nat) (assigned : Nat → Nat) (t : Nat) :
    ∑ s in Finset.range n_students, (if assigned s = t then 1 else 0) =
      ((List.range n_students).filter (fun s => decide (assigned s = t))).length := by
  rw [← sum_map_range, ← sum_indicator_filter]
  congr 1
  refine List.map_congr_left (fun s _ => ?_)
  by_cases h : assigned s = t <;> simp [h]

/-- A matrix whose rows are the indicator rows of an assignment gives the
written objective the total utility of that assignment. -/
theorem objective_value_of_assignment (c_matrix y : Matrix)
    (n_students n_distinct_topics : Nat) (assigned : Nat → Nat)
    (hin : ∀ s, s < n_students → assigned s < n_distinct_topics)
    (hy : ∀ s t, s < n_students → t < n_distinct_topics →
      entry y s t = if assigned s = t then 1 else 0) :
    objective_value (emit_objective c_matrix n_students n_distinct_topics) y =
      total_utility c_matrix n_students assigned := by
  rw [objective_value_emit]
  unfold total_utility
  rw [sum_map_range]
  refine Finset.sum_congr rfl (fun s hs => ?_)
  have hslt := Finset.mem_range.mp hs
  have hrow : ∑ t in Finset.range n_distinct_topics, entry c_matrix s t * entry y s t =
      ∑ t in Finset.range n_distinct_topics,
        (if assigned s = t then entry c_matrix s (assigned s) else 0) := by
    refine Finset.sum_congr rfl (fun t ht => ?_)
    rw [hy s t hslt (Finset.mem_range.mp ht)]
    by_cases h : assigned s = t
    · simp [h]
    · simp [h]
  rw [hrow, Finset.sum_ite_eq]
  simp [hin s hslt]

/-- The matrix of a feasible assignment is feasible for the written file
when every capacity is `1`. -/
theorem feasible_of_assignment (topics : List Topic) (c_matrix : Matrix) (n_students : Nat)
    (assigned : Nat → Nat) (hone : ∀ t, t < topics.length → capacity topics t = 1)
    (ha : feasible_assignment topics n_students assigned) :
    feasible (build_lp c_matrix n_students topics.length) n_students topics.length
      (assignment_matrix n_students topics.length assigned) := by
  refine ⟨has_shape_assignment_matrix _ _ _, is_binary_assignment_matrix _ _ _, ?_⟩
  rw [satisfies_build_lp]
  constructor
  · intro t ht
    have hcol : ∑ s in Finset.range n_students,
        entry (assignment_matrix n_students topics.length assigned) s t =
        ∑ s in Finset.range n_students, (if assigned s = t then 1 else 0) :=
      Finset.sum_congr rfl (fun s hs =>
        entry_assignment_matrix _ _ _ s t (Finset.mem_range.mp hs) ht)
    rw [hcol, sum_indicator_count, ha.2 t ht, hone t ht]
  · intro s hs
    have hrow : ∑ t in Finset.range topics.length,
        entry (assignment_matrix n_students topics.length assigned) s t =
        ∑ t in Finset.range topics.length, (if assigned s = t then 1 else 0) :=
      Finset.sum_congr rfl (fun t ht =>
        entry_assignment_matrix _ _ _ s t hs (Finset.mem_range.mp ht))
    rw [hrow, Finset.sum_ite_eq]
    simp [ha.1 s hs]

theorem capacity_sum_ge (topics : List Topic) (hcap : ∀ topic ∈ topics, 1 ≤ topic.2) :
    topics.length ≤ capacity_sum topics := by
  induction topics with
  | nil => simp [capacity_sum]
  | cons topic rest ih =>
    have h1 := hcap topic (List.mem_cons_self topic rest)
    have h2 := ih (fun q hq => hcap q (List.mem_cons_of_mem topic hq))
    simp only [capacity_sum, List.map_cons, List.sum_cons, List.length_cons] at h2 ⊢
    omega

/-- Capacities that are all at least `1` and add up to the number of topics
are all `1`. -/
theorem capacities_all_one (topics : List Topic) (hcap : ∀ topic ∈ topics, 1 ≤ topic.2)
    (hsum : capacity_sum topics = topics.length) : ∀ topic ∈ topics, topic.2 = 1 := by
  induction topics with
  | nil => intro topic h; simp at h
  | cons topic rest ih =>
    have h1 := hcap topic (List.mem_cons_self topic rest)
    have hrest : ∀ q ∈ rest, 1 ≤ q.2 := fun q hq => hcap q (List.mem_cons_of_mem topic hq)
    have h2 := capacity_sum_ge rest hrest
    simp only [capacity_sum, List.map_cons, List.sum_cons, List.length_cons] at hsum h2
    intro q hq
    rcases List.mem_cons.mp hq with rfl | hq
    · omega
    · exact ih hrest (by simp only [capacity_sum]; omega) q hq

theorem capacity_of_all_one (topics : List Topic) (hone : ∀ topic ∈ topics, topic.2 = 1)
    (t : Nat) (ht : t < topics.length) : capacity topics t = 1 := by
  unfold capacity
  rw [List.getD_eq_getElem?_getD, List.getElem?_eq_getElem ht]
  exact hone _ (List.getElem_mem ht)

/-- A matrix with all row sums and all column sums `1` is square. -/
theorem square_of_sums (x : Matrix) (n_students n_distinct_topics : Nat)
    (hcol : ∀ t, t < n_distinct_topics → ∑ s in Finset.range n_students, entry x s t = 1)
    (hrow : ∀ s, s < n_students → ∑ t in Finset.range n_distinct_topics, entry x s t = 1) :
    n_students = n_distinct_topics := by
  have h1 : ∑ s in Finset.range n_students, ∑ t in Finset.range n_distinct_topics,
      entry x s t = n_students := by
    rw [Finset.sum_congr rfl (fun s hs => hrow s (Finset.mem_range.mp hs))]
    simp
  have h2 : ∑ t in Finset.range n_distinct_topics, ∑ s in Finset.range n_students,
      entry x s t = n_distinct_topics := by
    rw [Finset.sum_congr rfl (fun t ht => hcol t (Finset.mem_range.mp ht))]
    simp
  rw [Finset.sum_comm] at h1
  omega

/-- Claim C1. On a balanced input (capacities at least `1` that add up to
the number of students) whose cost matrix is built, when the solving engine
answers under its contract (a feasible 0/1 matrix maximising the written
objective), `main` returns `0` and prints one line per student; the printed
assignment is feasible, and its total utility is at least the total utility
of every assignment that gives each student one topic and fills each topic
exactly to its capacity. (The written equations all have right-hand side
`1`, so such an answer exists only when the capacities are all `1`; on other
balanced inputs the written program has no solution and nothing is
reported.) -/
theorem reported_assignment_optimal (topics : List Topic)
    (student_preferences : List Student) (weights : List Nat) (lp_solve : LpFile → Matrix)
    (c_matrix : Matrix)
    (hcap : ∀ topic ∈ topics, 1 ≤ topic.2)
    (hfit : capacity_sum topics < 18446744073709551616)
    (hbal : capacity_sum topics = student_preferences.length)
    (hc : build_c_matrix student_preferences topics.length weights = some c_matrix)
    (hx : optimal_answer (build_lp c_matrix student_preferences.length topics.length)
      student_preferences.length topics.length
      (lp_solve (build_lp c_matrix student_preferences.length topics.length))) :
    (main_body topics student_preferences weights lp_solve).exit = .returned 0 ∧
    (main_body topics student_preferences weights lp_solve).cout =
      (List.range student_preferences.length).map (fun s =>
        report_line topics student_preferences (s, reported_topic
          (lp_solve (build_lp c_matrix student_preferences.length topics.length))
          topics.length s)) ∧
    feasible_assignment topics student_preferences.length (reported_topic
      (lp_solve (build_lp c_matrix student_preferences.length topics.length))
      topics.length) ∧
    ∀ assigned, feasible_assignment topics student_preferences.length assigned →
      total_utility c_matrix student_preferences.length assigned ≤
        total_utility c_matrix student_preferences.length (reported_topic
          (lp_solve (build_lp c_matrix student_preferences.length topics.length))
          topics.length) := by
  obtain ⟨hfeas, hopt⟩ := hx
  obtain ⟨hs, ht⟩ := feasible_passes_checks _ _ _ _ hfeas
  have hsn := (check_students_nil _ _ _).mp hs
  have htn := (check_topics_none _ _ _).mp ht
  obtain ⟨_, hbin, hsat⟩ := hfeas
  rw [satisfies_build_lp] at hsat
  obtain ⟨hcol, hrow⟩ := hsat
  have hsq := square_of_sums _ _ _ hcol hrow
  have hone := capacities_all_one topics hcap (by rw [hbal, hsq])
  have hcap1 := capacity_of_all_one topics hone
  have hb : student_preferences.length = n_topics topics := by
    rw [n_topics_eq topics hfit]; exact hbal.symm
  have hrep := fun s hlt => reported_topic_unique
    (lp_solve (build_lp c_matrix student_preferences.length topics.length))
    topics.length s (hsn s hlt)
  have hentry : ∀ s t, s < student_preferences.length → t < topics.length →
      entry (lp_solve (build_lp c_matrix student_preferences.length topics.length)) s t =
        if reported_topic
          (lp_solve (build_lp c_matrix student_preferences.length topics.length))
          topics.length s = t then 1 else 0 := by
    intro s t hslt htlt
    by_cases h : reported_topic
        (lp_solve (build_lp c_matrix student_preferences.length topics.length))
        topics.length s = t
    · rw [if_pos h]
      rcases entry_binary _ hbin s t with h0 | h1
      · exact absurd (h ▸ h0) (hrep s hslt).2.2.1
      · exact h1
    · rw [if_neg h]
      by_contra hne
      exact h ((hrep s hslt).2.2.2 t htlt hne).symm
  refine ⟨?_, ?_, ⟨fun s hlt => (hrep s hlt).2.1, ?_⟩, ?_⟩
  · rw [main_body_solved _ _ _ _ c_matrix hb hc]
    simp only
    rw [check_and_report_pass _ _ _ ht]
  · rw [main_body_solved _ _ _ _ c_matrix hb hc]
    simp only
    rw [check_and_report_pass _ _ _ ht]
    simp only
    rw [report_pairs_complete _ _ _ hsn, List.map_map]
    rfl
  · intro t htlt
    rw [hcap1 t htlt, ← sum_indicator_count,
      ← Finset.sum_congr rfl (fun s hs => hentry s t (Finset.mem_range.mp hs) htlt)]
    exact hcol t htlt
  · intro assigned ha
    have hy := hopt _ (feasible_of_assignment topics c_matrix student_preferences.length
      assigned hcap1 ha)
    have hobj : (build_lp c_matrix student_preferences.length topics.length).objective =
        emit_objective c_matrix student_preferences.length topics.length := rfl
    rw [hobj, objective_value_of_assignment c_matrix _ _ _ assigned ha.1
        (fun s t hslt htlt => entry_assignment_matrix _ _ _ s t hslt htlt),
      objective_value_of_assignment c_matrix _ _ _ _ (fun s hlt => (hrep s hlt).2.1)
        hentry] at hy
    exact hy

/-- The contract of the engine holds for the identity answer on the example
of C1: no feasible matrix has an objective value above `4`. -/
theorem example_answer_optimal :
    optimal_answer (build_lp [[2, 1], [1, 2]] 2 2) 2 2 [[1, 0], [0, 1]] := by
  refine ⟨by decide, ?_⟩
  intro y hy
  obtain ⟨_, _, hsat⟩ := hy
  rw [satisfies_build_lp] at hsat
  obtain ⟨_, hrow⟩ := hsat
  have h0 := hrow 0 (by omega)
  have h1 := hrow 1 (by omega)
  have hobj : (build_lp [[2, 1], [1, 2]] 2 2).objective =
      emit_objective [[2, 1], [1, 2]] 2 2 := rfl
  rw [hobj, objective_value_emit, objective_value_emit]
  simp only [Finset.sum_range_succ, Finset.sum_range_zero, Nat.zero_add] at h0 h1 ⊢
  have e00 : entry [[2, 1], [1, 2]] 0 0 = 2 := rfl
  have e01 : entry [[2, 1], [1, 2]] 0 1 = 1 := rfl
  have e10 : entry [[2, 1], [1, 2]] 1 0 = 1 := rfl
  have e11 : entry [[2, 1], [1, 2]] 1 1 = 2 := rfl
  have x00 : entry [[1, 0], [0, 1]] 0 0 = 1 := rfl
  have x01 : entry [[1, 0], [0, 1]] 0 1 = 0 := rfl
  have x10 : entry [[1, 0], [0, 1]] 1 0 = 0 := rfl
  have x11 : entry [[1, 0], [0, 1]] 1 1 = 1 := rfl
  rw [e00, e01, e10, e11, x00, x01, x10, x11]
  omega

/-- Witness for C1: students `A: [1,2]`, `B: [2,1]`, topics `X`, `Y` of
capacity one, weights `[2, 1]`; the reported assignment `A -> X`, `B -> Y`
has total utility `4` and no feasible assignment has more. -/
theorem reported_assignment_optimal_witness :
    (main_body [("X", 1), ("Y", 1)] [("A", [1, 2]), ("B", [2, 1])] [2, 1]
        (fun _ => [[1, 0], [0, 1]])).cout = ["A get the topic X", "B get the topic Y"] ∧
    total_utility [[2, 1], [1, 2]] 2 (reported_topic [[1, 0], [0, 1]] 2) = 4 ∧
    ∀ assigned, feasible_assignment [("X", 1), ("Y", 1)] 2 assigned →
      total_utility [[2, 1], [1, 2]] 2 assigned ≤ 4 :=
  ⟨by decide, by decide, fun assigned ha =>
    (reported_assignment_optimal [("X", 1), ("Y", 1)] [("A", [1, 2]), ("B", [2, 1])] [2, 1]
      (fun _ => [[1, 0], [0, 1]]) [[2, 1], [1, 2]] (by decide) (by decide) (by decide)
      (by decide) example_answer_optimal).2.2.2 assigned ha⟩

/-! ## Topic lists as `main` holds them -/

theorem read_in_topics_loop (lines : List String) :
    ∀ init : List Topic, (∀ topic ∈ init, topic.2 = 1) →
      ∀ topic ∈ lines.foldl (fun topics topic_line =>
        if topic_line.isEmpty then topics else topics ++ [(topic_line, 1)]) init,
        topic.2 = 1 := by
  induction lines with
  | nil => intro init h; exact h
  | cons line rest ih =>
    intro init h
    simp only [List.foldl_cons]
    apply ih
    by_cases he : line.isEmpty = true
    · simp only [he, if_true]; exact h
    · simp only [he]
      intro topic hmem
      rcases List.mem_append.mp hmem with hin | hin
      · exact h topic hin
      · rw [List.mem_singleton.mp hin]

/-- Every topic that `read_in_topics` returns has capacity `1` (line 20 is
the only place where a capacity is written). -/
theorem read_in_topics_capacity (lines : List String) :
    ∀ topic ∈ read_in_topics lines, topic.2 = 1 :=
  read_in_topics_loop lines [] (fun topic h => by simp at h)

/-- When a run of `main` has written an LP file, the student file was read
without an exception and the body wrote the file. -/
theorem main_lp_file (topic_lines : List String) (student_lines : List (String × List Nat))
    (weights : List Nat) (lp_solve : LpFile → Matrix) (lp : LpFile)
    (h : (main topic_lines student_lines weights lp_solve).lp_file = some lp) :
    ∃ student_preferences,
      read_in_student_preferences student_lines = .ok student_preferences ∧
      (main_body (read_in_topics topic_lines) student_preferences weights lp_solve).lp_file =
        some lp := by
  unfold main at h
  cases hread : read_in_student_preferences student_lines with
  | error what =>
    rw [hread] at h
    simp at h
  | ok student_preferences =>
    rw [hread] at h
    exact ⟨student_preferences, rfl, h⟩

/-- Claim C5. For every topic list that `main` holds (the list that
`read_in_topics` returns, each topic with its own capacity) and for every
candidate result matrix, the per-topic check fails (`main` returns the
status `1` and prints no assignment line) if and only if there is a topic
whose number of assigned students differs from that topic's capacity. -/
theorem topic_check_fails_iff (topic_lines : List String)
    (student_preferences : List Student) (x : Matrix) :
    ((check_and_report (read_in_topics topic_lines) student_preferences x).2.2 = 1 ∧
        (check_and_report (read_in_topics topic_lines) student_preferences x).2.1 = []) ↔
      ∃ t, t < (read_in_topics topic_lines).length ∧
        assigned_count x student_preferences.length t ≠
          capacity (read_in_topics topic_lines) t := by
  rw [check_and_report_fails_iff]
  have hcap := capacity_of_all_one _ (read_in_topics_capacity topic_lines)
  constructor
  · rintro ⟨t, ht, hne⟩; exact ⟨t, ht, by rw [hcap t ht]; exact hne⟩
  · rintro ⟨t, ht, hne⟩; exact ⟨t, ht, by rw [hcap t ht] at hne; exact hne⟩

/-- Example for C5: a candidate in which topic `X` of capacity one receives
two students is rejected. -/
theorem topic_check_fails_iff_witness :
    (check_and_report (read_in_topics ["X", "Y"]) [("A", [1]), ("B", [1])]
        [[1, 0], [1, 0]]).2.2 = 1 ∧
    (check_and_report (read_in_topics ["X", "Y"]) [("A", [1]), ("B", [1])]
        [[1, 0], [1, 0]]).2.1 = [] :=
  (topic_check_fails_iff ["X", "Y"] [("A", [1]), ("B", [1])] [[1, 0], [1, 0]]).mpr
    ⟨0, by decide, by decide⟩

/-- Claim C8. For every input of `main` on which an LP file is written, with
`S` the number of students read and the topics `t = 0..T-1` read by
`read_in_topics`, the constraints in the file are exactly those of the
specification: for every student the sum over all topics equals `1` and for
every topic the sum over all students equals the capacity of the topic (the
topic equations come first in the file); every variable `x_s_t` with `s < S`
and `t < T` is declared binary exactly once, and nothing else is declared. -/
theorem constraints_written (topic_lines : List String)
    (student_lines : List (String × List Nat)) (weights : List Nat)
    (lp_solve : LpFile → Matrix) (lp : LpFile)
    (h : (main topic_lines student_lines weights lp_solve).lp_file = some lp) :
    ∃ student_preferences,
      read_in_student_preferences student_lines = .ok student_preferences ∧
      lp.constraints.Perm
        (spec_constraints (read_in_topics topic_lines) student_preferences.length) ∧
      lp.constraints =
        (List.range (read_in_topics topic_lines).length).map
          (fun t => { lhs := column_vars student_preferences.length t,
                      rhs := capacity (read_in_topics topic_lines) t }) ++
        (List.range student_preferences.length).map
          (fun s => { lhs := row_vars s (read_in_topics topic_lines).length, rhs := 1 }) ∧
      lp.binaries.Nodup ∧
      (∀ v : Var, v ∈ lp.binaries ↔
        v.1 < student_preferences.length ∧ v.2 < (read_in_topics topic_lines).length) := by
  obtain ⟨student_preferences, hread, hbody⟩ := main_lp_file _ _ _ _ _ h
  obtain ⟨c_matrix, _, rfl⟩ := main_body_lp_file _ _ _ _ _ hbody
  have hcap : (List.range (read_in_topics topic_lines).length).map
        (fun t => ({ lhs := column_vars student_preferences.length t,
                     rhs := capacity (read_in_topics topic_lines) t } : Equation)) =
      (List.range (read_in_topics topic_lines).length).map
        (fun t => { lhs := column_vars student_preferences.length t, rhs := 1 }) := by
    refine List.map_congr_left (fun t ht => ?_)
    rw [capacity_of_all_one _ (read_in_topics_capacity topic_lines) t (List.mem_range.mp ht)]
  have hcons : (build_lp c_matrix student_preferences.length
        (read_in_topics topic_lines).length).constraints =
      (List.range (read_in_topics topic_lines).length).map
        (fun t => { lhs := column_vars student_preferences.length t,
                    rhs := capacity (read_in_topics topic_lines) t }) ++
      (List.range student_preferences.length).map
        (fun s => { lhs := row_vars s (read_in_topics topic_lines).length, rhs := 1 }) := by
    rw [hcap]
    simp only [build_lp, emit_topic_constraints_eq, emit_student_constraints_eq]
  refine ⟨student_preferences, hread, ?_, hcons, nodup_emit_binaries _ _,
    mem_emit_binaries _ _⟩
  rw [hcons]
  unfold spec_constraints
  exact List.perm_append_comm

/-- Witness for C8: two students and the topic file `X`, `Y`. -/
theorem constraints_written_witness :
    ∃ student_preferences,
      read_in_student_preferences [("A", [1, 2]), ("B", [2, 1])] = .ok student_preferences ∧
      (build_lp [[2, 1], [1, 2]] 2 2).constraints.Perm
        (spec_constraints (read_in_topics ["X", "Y"]) student_preferences.length) ∧
      (build_lp [[2, 1], [1, 2]] 2 2).constraints =
        (List.range (read_in_topics ["X", "Y"]).length).map
          (fun t => { lhs := column_vars student_preferences.length t,
                      rhs := capacity (read_in_topics ["X", "Y"]) t }) ++
        (List.range student_preferences.length).map
          (fun s => { lhs := row_vars s (read_in_topics ["X", "Y"]).length, rhs := 1 }) ∧
      (build_lp [[2, 1], [1, 2]] 2 2).binaries.Nodup ∧
      (∀ v : Var, v ∈ (build_lp [[2, 1], [1, 2]] 2 2).binaries ↔
        v.1 < student_preferences.length ∧ v.2 < (read_in_topics ["X", "Y"]).length) :=
  constraints_written ["X", "Y"] [("A", [1, 2]), ("B", [2, 1])] [2, 1]
    (fun _ => [[1, 0], [0, 1]]) (build_lp [[2, 1], [1, 2]] 2 2) (by decide)

/-! ## The printed lines -/

/-- Claim C10. When both consistency checks pass, the report loop prints
exactly one line per student, in student-index order; the line of student
`s` is that student's name, the text ` get the topic ` and the name of the
unique topic whose entry in row `s` of the result matrix is set; and every
topic is named by exactly one student. -/
theorem report_is_bijection (topics : List Topic) (student_preferences : List Student)
    (x : Matrix)
    (hs : check_students x student_preferences.length topics.length = [])
    (ht : check_topics x student_preferences.length topics.length = none) :
    (check_and_report topics student_preferences x).2.1.length = student_preferences.length ∧
    (∀ (s : Nat) (student : Student), student_preferences[s]? = some student →
      ∃ topic : Topic, topics[reported_topic x topics.length s]? = some topic ∧
        (check_and_report topics student_preferences x).2.1[s]? =
          some (student.1 ++ " get the topic " ++ topic.1) ∧
        entry x s (reported_topic x topics.length s) ≠ 0 ∧
        ∀ t, t < topics.length → entry x s t ≠ 0 → t = reported_topic x topics.length s) ∧
    (∀ t, t < topics.length →
      ∃! s, s < student_preferences.length ∧ reported_topic x topics.length s = t) := by
  rw [check_students_nil] at hs
  have htn := (check_topics_none _ _ _).mp ht
  have hcout : (check_and_report topics student_preferences x).2.1 =
      (List.range student_preferences.length).map (fun s =>
        report_line topics student_preferences (s, reported_topic x topics.length s)) := by
    rw [check_and_report_pass _ _ _ ht]
    simp only
    rw [report_pairs_complete _ _ _ hs, List.map_map]
    rfl
  refine ⟨?_, ?_, ?_⟩
  · rw [hcout]; simp
  · intro s student hstudent
    have hlt : s < student_preferences.length := (List.getElem?_eq_some.mp hstudent).1
    obtain ⟨_, hrlt, hset, huniq⟩ := reported_topic_unique x topics.length s (hs s hlt)
    obtain ⟨topic, htopic⟩ : ∃ topic, topics[reported_topic x topics.length s]? = some topic :=
      ⟨_, List.getElem?_eq_getElem hrlt⟩
    refine ⟨topic, htopic, ?_, hset, huniq⟩
    rw [hcout, List.getElem?_map, List.getElem?_range hlt]
    simp only [Option.map_some', report_line, List.getD_eq_getElem?_getD, hstudent, htopic,
      Option.getD_some]
  · intro t hlt
    have hcol := htn t hlt
    rw [n_trues_topic_eq] at hcol
    obtain ⟨s0, hs0, h1, hrest⟩ := unique_of_sum_one
      (fun s => if entry x s t ≠ 0 then 1 else 0) student_preferences.length
      (fun s _ => by by_cases hz : entry x s t = 0 <;> simp [hz]) hcol
    have hne0 : entry x s0 t ≠ 0 := by
      intro hz
      simp [hz] at h1
    refine ⟨s0, ⟨hs0, ?_⟩, ?_⟩
    · exact ((reported_topic_unique x topics.length s0 (hs s0 hs0)).2.2.2 t hlt hne0).symm
    · rintro s ⟨hslt, hrep⟩
      by_contra hcon
      have hz := hrest s hslt hcon
      have hset := (reported_topic_unique x topics.length s (hs s hslt)).2.2.1
      rw [hrep] at hset
      simp [hset] at hz

/-- Witness for C10: on the swap of two students and two topics the two
lines are `A get the topic Y` and `B get the topic X`. -/
theorem report_is_bijection_witness :
    (check_and_report [("X", 1), ("Y", 1)] [("A", [1, 2]), ("B", [2, 1])]
        [[0, 1], [1, 0]]).2.1 = ["A get the topic Y", "B get the topic X"] ∧
    (check_and_report [("X", 1), ("Y", 1)] [("A", [1, 2]), ("B", [2, 1])]
        [[0, 1], [1, 0]]).2.1.length = 2 ∧
    ∃ topic : Topic,
      [(("X", 1) : Topic), ("Y", 1)][reported_topic [[0, 1], [1, 0]] 2 1]? = some topic ∧
      (check_and_report [("X", 1), ("Y", 1)] [("A", [1, 2]), ("B", [2, 1])]
        [[0, 1], [1, 0]]).2.1[1]? = some ("B" ++ " get the topic " ++ topic.1) ∧
      entry [[0, 1], [1, 0]] 1 (reported_topic [[0, 1], [1, 0]] 2 1) ≠ 0 ∧
      ∀ t, t < 2 → entry [[0, 1], [1, 0]] 1 t ≠ 0 →
        t = reported_topic [[0, 1], [1, 0]] 2 1 :=
  ⟨by decide,
    (report_is_bijection [("X", 1), ("Y", 1)] [("A", [1, 2]), ("B", [2, 1])]
      [[0, 1], [1, 0]] (by decide) (by decide)).1,
    (report_is_bijection [("X", 1), ("Y", 1)] [("A", [1, 2]), ("B", [2, 1])]
      [[0, 1], [1, 0]] (by decide) (by decide)).2.1 1 ("B", [2, 1]) rfl⟩

end TopicAssignment
